import Mathlib

/-!
# Verification of the mybgg setup-validation and publishing scripts

Shallow embedding of `scripts/validate_setup.py` and
`scripts/download_and_index.py`.  Strings are modelled as Lean `String`
(logically a list of characters); byte strings (HTTP bodies) are modelled as
already-decoded `String`s.  HTTP traffic is modelled by passing explicit
response oracles; the trace of issued requests is returned alongside each
checker's outcome.
-/

set_option maxHeartbeats 1000000

namespace MyBgg

/-! ## Character classes (ASCII, via code points) -/

/-- `[A-Za-z0-9]` as in the Python regexes. -/
def isAlnumChar (c : Char) : Bool :=
  (decide (65 ≤ c.toNat) && decide (c.toNat ≤ 90)) ||
  (decide (97 ≤ c.toNat) && decide (c.toNat ≤ 122)) ||
  (decide (48 ≤ c.toNat) && decide (c.toNat ≤ 57))

/-- `[A-Za-z0-9-]`: the character class of the owner regex. -/
def isOwnerChar (c : Char) : Bool :=
  isAlnumChar c || decide (c.toNat = 45)

/-- `[A-Za-z0-9._-]`: the character class of the repo-name regex. -/
def isRepoChar (c : Char) : Bool :=
  isAlnumChar c || decide (c.toNat = 46) || decide (c.toNat = 95) || decide (c.toNat = 45)

/-- The whitespace characters stripped by Python `str.strip()` (ASCII range). -/
def isPySpace (c : Char) : Bool :=
  decide (c.toNat = 32) || decide (c.toNat = 9) || decide (c.toNat = 10) ||
  decide (c.toNat = 13) || decide (c.toNat = 11) || decide (c.toNat = 12)

/-- `'A' ≤ c ≤ 'Z'`. -/
def upperChar (c : Char) : Bool :=
  decide (65 ≤ c.toNat) && decide (c.toNat ≤ 90)

/-! ## Generic list-of-characters helpers -/

/-- `str.strip()`: remove leading and trailing whitespace. -/
def pyStripChars (l : List Char) : List Char :=
  ((l.dropWhile isPySpace).reverse.dropWhile isPySpace).reverse

/-- `str.rstrip('/')`: remove trailing slashes. -/
def rstripSlashes (l : List Char) : List Char :=
  (l.reverse.dropWhile (fun c => c == '/')).reverse

/-- Split a list at its first `'/'`: models Python `s.split('/', 1)` when a
slash is present (`none` when there is no slash). -/
def splitFirstSlash : List Char → Option (List Char × List Char)
  | [] => none
  | c :: cs =>
    if c = '/' then some ([], cs)
    else
      match splitFirstSlash cs with
      | none => none
      | some (a, b) => some (c :: a, b)

/-- Case-insensitive match of one subject character `c` against a
lowercase-ASCII pattern character `pat` (models `re.IGNORECASE`). -/
def matchCI (pat c : Char) : Bool :=
  decide (c.toNat = pat.toNat) || (upperChar c && decide (c.toNat + 32 = pat.toNat))

/-- Strip a fixed lowercase pattern from the front of `v`, case-insensitively;
returns the remainder on success. -/
def stripPrefixCI : List Char → List Char → Option (List Char)
  | [], v => some v
  | _ :: _, [] => none
  | p :: ps, c :: cs => if matchCI p c then stripPrefixCI ps cs else none

/-- Prefix of `l` up to (excluding) the first occurrence of `sep`:
models Python `s.split(sep)[0]`. -/
def takeUntilSep (sep : List Char) : List Char → List Char
  | [] => []
  | c :: cs => if sep.isPrefixOf (c :: cs) then [] else c :: takeUntilSep sep cs

/-- Does the list contain two adjacent dots (`'..' in repo`)? -/
def hasDoubleDot : List Char → Bool
  | [] => false
  | [_] => false
  | a :: b :: t => (a == '.' && b == '.') || hasDoubleDot (b :: t)

/-! ## `_normalize_github_repo` (validate_setup.py lines 54-73) -/

/-- Pattern `https://` as characters. -/
def httpsPat : List Char := ['h', 't', 't', 'p', 's', ':', '/', '/']

/-- Pattern `http://` as characters. -/
def httpPat : List Char := ['h', 't', 't', 'p', ':', '/', '/']

/-- Pattern `www.` as characters. -/
def wwwPat : List Char := ['w', 'w', 'w', '.']

/-- Pattern `github.com/` as characters. -/
def githubComPat : List Char := ['g', 'i', 't', 'h', 'u', 'b', '.', 'c', 'o', 'm', '/']

/-- The anchored, case-insensitive regex
`^(?:https?://)?(?:www\.)?github\.com/([^/]+)/([^/]+)$` of
`_normalize_github_repo`.  The optional groups are deterministic here (no
backtracking is possible: the literal alternatives start with distinct
letters), so they are tried greedily. -/
def matchGithubUrl (value : List Char) : Option (List Char × List Char) :=
  let r1 :=
    match stripPrefixCI httpsPat value with
    | some rest => rest
    | none =>
      match stripPrefixCI httpPat value with
      | some rest => rest
      | none => value
  let r2 :=
    match stripPrefixCI wwwPat r1 with
    | some rest => rest
    | none => r1
  match stripPrefixCI githubComPat r2 with
  | none => none
  | some rest =>
    match splitFirstSlash rest with
    | none => none
    | some (a, b) =>
      if a.isEmpty || b.isEmpty || b.contains '/' then none else some (a, b)

/-- The warning emitted when a full URL is supplied (quotes of the original
message omitted). -/
def urlWarning : String :=
  "github_repo should be just owner/repo (not a full URL)"

/-- `_normalize_github_repo(raw_value)`: returns
`(normalized_repo, warnings)`. -/
def _normalize_github_repo (rawValue : String) : String × List String :=
  let value := rstripSlashes (pyStripChars rawValue.data)
  match matchGithubUrl value with
  | some (owner, repo) =>
    (String.mk owner ++ "/" ++ String.mk repo, [urlWarning])
  | none => (String.mk value, [])

/-! ## Owner / repo-name validity (validate_setup.py lines 76-90) -/

/-- The optional tail group `(?:[A-Za-z0-9-]{0,37}[A-Za-z0-9])?` of the owner
regex: empty, or at most 38 characters whose last is alphanumeric and whose
others are alphanumeric-or-hyphen. -/
def ownerTailOk (l : List Char) : Bool :=
  match l with
  | [] => true
  | _ :: _ =>
    decide (l.length ≤ 38) && l.dropLast.all isOwnerChar &&
      (match l.getLast? with
       | some c => isAlnumChar c
       | none => false)

/-- `_is_valid_github_owner`: full match of
`[A-Za-z0-9](?:[A-Za-z0-9-]{0,37}[A-Za-z0-9])?`. -/
def _is_valid_github_owner (owner : String) : Bool :=
  match owner.data with
  | [] => false
  | c :: rest => isAlnumChar c && ownerTailOk rest

/-- `_is_valid_github_repo_name`: rejects `.`, `..`, any `..` substring and
any `%`, then requires a full match of `[A-Za-z0-9._-]+`. -/
def _is_valid_github_repo_name (repo : String) : Bool :=
  let r := repo.data
  if r = ['.'] || r = ['.', '.'] then false
  else if hasDoubleDot r then false
  else if r.contains '%' then false
  else !r.isEmpty && r.all isRepoChar

/-- The format gate of `validate_github_repo` (lines 132-149): normalization
followed by the exactly-one-slash check and the owner/repo grammar checks.
`true` means the identifier passes the format validation (the function
proceeds to the network stages). -/
def repoFormatAccepted (s : String) : Bool :=
  let normalized := (_normalize_github_repo s).1
  if !normalized.data.contains '/' || decide (normalized.data.count '/' ≠ 1) then false
  else
    match splitFirstSlash normalized.data with
    | none => false
    | some (o, r) => _is_valid_github_owner (String.mk o) && _is_valid_github_repo_name (String.mk r)

/-! ## Spec-side grammars, used only to compare against the code

The following definitions are transcribed from the specification text, not
from the source; they exist to state refinement/comparison claims. -/

/-- Modelled from the spec claim wording: the iterated group
`(-?[A-Za-z0-9])*` of the owner grammar `[A-Za-z0-9](-?[A-Za-z0-9])*`
(a hyphen must be followed by an alphanumeric character; no two consecutive
hyphens, no trailing hyphen). -/
def specOwnerRest : List Char → Bool
  | [] => true
  | c :: rest =>
    if c = '-' then
      match rest with
      | [] => false
      | d :: t => isAlnumChar d && specOwnerRest t
    else isAlnumChar c && specOwnerRest rest

/-- Modelled from the spec claim wording: owner grammar
`[A-Za-z0-9](-?[A-Za-z0-9])*` with length 1-39. -/
def specOwnerGrammar (o : List Char) : Bool :=
  match o with
  | [] => false
  | c :: rest => isAlnumChar c && specOwnerRest rest && decide (rest.length ≤ 38)

/-- Modelled from the spec claim wording: repo grammar `[A-Za-z0-9._-]+`,
never `.` or `..`, containing neither `..` nor `%`. -/
def specRepoGrammar (r : List Char) : Bool :=
  !r.isEmpty && r.all isRepoChar &&
    !(r = ['.'] || r = ['.', '.']) && !hasDoubleDot r && !r.contains '%'

/-- The owner grammar that the code actually enforces, stated declaratively
(amended claim C3): length 1-39, first and last characters alphanumeric, all
characters alphanumeric or hyphen — consecutive hyphens allowed. -/
def ownerGrammarAmended (o : List Char) : Bool :=
  match o with
  | [] => false
  | c :: rest =>
    isAlnumChar c && decide (rest.length ≤ 38) && rest.all isOwnerChar &&
      (match rest.getLast? with
       | some d => isAlnumChar d
       | none => true)

/-- The full identifier grammar of amended claim C3 applied to a normalized
identifier: an owner part and a repo part separated by exactly one slash,
each matching its grammar. -/
def c3IdentifierGrammar (n : List Char) : Bool :=
  match splitFirstSlash n with
  | none => false
  | some (o, r) => ownerGrammarAmended o && !r.contains '/' && specRepoGrammar r

/-- The original claim C3 grammar applied to a normalized identifier
(owner part per `specOwnerGrammar`). -/
def c3OriginalGrammar (n : List Char) : Bool :=
  match splitFirstSlash n with
  | none => false
  | some (o, r) => specOwnerGrammar o && !r.contains '/' && specRepoGrammar r

/-! ## HTTP modelling

An HTTP response carries its status, its body (modelled as an
already-decoded string) and, for bodies that the script feeds to
`json.loads(...).get('message', '')`, the extracted `message` field
(`none` models a decode failure, in which case the script falls back to
`_decode_snippet`). -/

structure HttpResp where
  status : Nat
  body : String
  jsonMsg : Option String
  deriving Repr, DecidableEq

/-- The four responses `validate_github_repo` can consume, in request order:
user lookup, repo lookup, proxy HEAD, proxy GET (the last is only consumed
on a 400 from the HEAD). -/
structure GithubEnv where
  userResp : HttpResp
  repoResp : HttpResp
  proxyHeadResp : HttpResp
  proxyGetResp : HttpResp
  deriving Repr, DecidableEq

/-- Result of one checker run: outcome, printed lines, issued requests
(method, url) in order. -/
structure CheckRun where
  ok : Bool
  msgs : List String
  requests : List (String × String)
  deriving Repr, DecidableEq

/-- `_decode_snippet(body)` (lines 45-51) with the default `limit=300`:
empty body gives the empty string, otherwise the first 300 (decoded)
characters. -/
def _decode_snippet (body : String) : String :=
  if body.data = [] then "" else String.mk (body.data.take 300)

/-! ## `_validate_github_user` (lines 93-127) -/

/-- `_validate_github_user(owner)` against the supplied response: returns the
boolean result, the printed lines and the issued requests.  Message quotes
are omitted. -/
def _validate_github_user (owner : String) (resp : HttpResp) : Bool × List String × List (String × String) :=
  let apiUrl := "https://api.github.com/users/" ++ owner
  let intro := ["🔍 Checking GitHub user " ++ owner ++ " exists..."]
  let reqs := [("GET", apiUrl)]
  if resp.status = 200 then
    (true, intro ++ ["✅ GitHub user " ++ owner ++ " exists"], reqs)
  else if resp.status = 404 then
    (false, intro ++
      ["❌ GitHub user " ++ owner ++ " not found (404)",
       "   Check that the username is spelled correctly"], reqs)
  else if resp.status = 403 then
    let msg :=
      match resp.jsonMsg with
      | some m => m
      | none => _decode_snippet resp.body
    (true, intro ++
      ["⚠️  GitHub API returned 403 when checking user (rate limit or access restriction)"] ++
      (if msg = "" then [] else ["   Details: " ++ msg]), reqs)
  else
    let snippet := _decode_snippet resp.body
    (true, intro ++
      ["⚠️  GitHub API returned HTTP " ++ toString resp.status ++ " when checking user"] ++
      (if snippet = "" then [] else ["   Details: " ++ snippet]), reqs)

/-! ## `validate_github_repo` (lines 130-212) -/

/-- `validate_github_repo(repo_value)` against the supplied environment. -/
def validate_github_repo (repoValue : String) (env : GithubEnv) : CheckRun :=
  let norm := _normalize_github_repo repoValue
  let normalized := norm.1
  let warnMsgs := norm.2.foldr
    (fun w acc => ["⚠️  " ++ w, "   Suggested value: " ++ normalized] ++ acc) []
  if !normalized.data.contains '/' || decide (normalized.data.count '/' ≠ 1) then
    ⟨false, warnMsgs ++
      ["❌ github_repo must be in the form OWNER/REPO",
       "   Example: EmilStenstrom/gamecache"], []⟩
  else
    match splitFirstSlash normalized.data with
    | none =>
      ⟨false, warnMsgs ++
        ["❌ github_repo must be in the form OWNER/REPO",
         "   Example: EmilStenstrom/gamecache"], []⟩
    | some (ownerL, repoL) =>
      let owner := String.mk ownerL
      let repo := String.mk repoL
      if !(_is_valid_github_owner owner && _is_valid_github_repo_name repo) then
        ⟨false, warnMsgs ++
          ["❌ github_repo contains invalid characters",
           "   It must look like: OWNER/REPO",
           "   Repo names may include dot, underscore and hyphen (e.g. doszek-games.github.io)",
           "   Current value: " ++ normalized], []⟩
      else
        let msgs0 := warnMsgs ++ ["✅ GitHub repo format looks good: " ++ normalized]
        let u := _validate_github_user owner env.userResp
        let msgs1 := msgs0 ++ u.2.1
        let reqs1 := u.2.2
        if u.1 = false then
          ⟨false, msgs1, reqs1⟩
        else
          let repoUrl := "https://api.github.com/repos/" ++ owner ++ "/" ++ repo
          let msgs2 := msgs1 ++ ["🔍 Checking GitHub repo exists..."]
          let reqs2 := reqs1 ++ [("GET", repoUrl)]
          let r := env.repoResp
          if r.status = 404 then
            ⟨false, msgs2 ++
              ["❌ GitHub repo " ++ repo ++ " not found in user " ++ owner ++ " account (404)",
               "   Check that:",
               "   - The repository name is spelled correctly",
               "   - The repository is public (not private)",
               "   - The repository exists in your GitHub account"], reqs2⟩
          else
            let repoMsgs :=
              if r.status = 200 then ["✅ GitHub repo is reachable"]
              else if r.status = 403 then
                let msg :=
                  match r.jsonMsg with
                  | some m => m
                  | none => _decode_snippet r.body
                ["⚠️  GitHub API returned 403 (rate limit or access restriction)"] ++
                  (if msg = "" then [] else ["   Details: " ++ msg])
              else
                let snippet := _decode_snippet r.body
                ["⚠️  GitHub API returned HTTP " ++ toString r.status] ++
                  (if snippet = "" then [] else ["   Details: " ++ snippet])
            let proxyUrl := "https://cors-proxy.mybgg.workers.dev/" ++ owner ++ "/" ++ repo
            let msgs3 := msgs2 ++ repoMsgs ++ ["🔍 Checking CORS proxy download endpoint..."]
            let reqs3 := reqs2 ++ [("HEAD", proxyUrl)]
            let p := env.proxyHeadResp
            if p.status = 200 then
              ⟨true, msgs3 ++ ["✅ CORS proxy can access your latest database release"], reqs3⟩
            else if p.status = 404 then
              ⟨false, msgs3 ++
                ["❌ CORS proxy returned 404 (database asset not found)",
                 "   Run: python scripts/download_and_index.py --cache_bgg",
                 "   Then ensure a GitHub Release exists with asset gamecache.sqlite.gz"], reqs3⟩
            else if p.status = 400 then
              let reqs4 := reqs3 ++ [("GET", proxyUrl)]
              let detail := _decode_snippet env.proxyGetResp.body
              ⟨false, msgs3 ++
                ["❌ CORS proxy rejected your github_repo (HTTP 400)"] ++
                (if detail = "" then [] else ["   Details: " ++ detail]) ++
                ["   github_repo must be OWNER/REPO (no extra path segments)"], reqs4⟩
            else
              ⟨true, msgs3 ++ ["⚠️  CORS proxy returned HTTP " ++ toString p.status], reqs3⟩

/-! ## `validate_python_deps` (lines 289-336) -/

/-- Strip the four version-operator clauses:
`line.split('==')[0].split('>=')[0].split('<=')[0].split('~=')[0]`. -/
def stripVersionSpec (l : List Char) : List Char :=
  takeUntilSep ['~', '=']
    (takeUntilSep ['<', '=']
      (takeUntilSep ['>', '=']
        (takeUntilSep ['=', '='] l)))

/-- Parse the lines of `requirements.in`: strip each line, skip blanks and
`#` comments, strip version specifiers, strip again. -/
def parseRequirements (fileLines : List String) : List String :=
  fileLines.filterMap fun line =>
    let stripped := pyStripChars line.data
    if stripped.isEmpty || stripped.head? = some '#' then none
    else some (String.mk (pyStripChars (stripVersionSpec stripped)))

/-- The import-name mapping: exact matches `pillow` and `pynacl` first, then
the hyphen and dot transforms (lines 313-324). -/
def importNameFor (package : String) : String :=
  if package = "pillow" then "PIL"
  else if package = "pynacl" then "nacl"
  else if package.data.contains '-' then
    String.mk (package.data.map (fun c => if c = '-' then '_' else c))
  else if package.data.contains '.' then
    String.mk (package.data.map (fun c => if c = '.' then '_' else c))
  else package

/-- `validate_python_deps()` given the manifest lines and an importability
oracle (`__import__` succeeding or not): returns the boolean result and the
missing list (declared names, in manifest order).  The file-read error path
is outside this model. -/
def validate_python_deps (fileLines : List String) (importable : String → Bool) :
    Bool × List String :=
  let requiredPackages := parseRequirements fileLines
  let missing := requiredPackages.filter fun package => !importable (importNameFor package)
  (missing.isEmpty, missing)

/-! ## `main` of validate_setup.py (lines 338-376) -/

/-- Result of one orchestrator run: the process exit status and the names of
the checks that executed, in order. -/
structure MainRun where
  exitCode : Nat
  checksRun : List String
  deriving Repr, DecidableEq

/-- `main()`: `configResult` is `validate_config()`'s value (`some` for the
tuple `(True, config)` — the function never returns `(False, _)` — and
`none` for a bare `False`); the three booleans are the results of the other
checks.  When `validate_config` does not return a tuple, `main` sets
`all_good = False` and then `return`s, so the interpreter exits with
status 0.  Otherwise every remaining check runs (`&=` always evaluates its
right-hand side) and the exit status is decided only at the end. -/
def mainRun (configResult : Option Unit) (githubOk depsOk bggOk : Bool) : MainRun :=
  match configResult with
  | none => ⟨0, ["config"]⟩
  | some _ =>
    let configValid := true
    let a1 := true && configValid
    let a2 := if configValid then a1 && githubOk else a1
    let a3 := a2 && depsOk
    let a4 := if configValid then a3 && bggOk else a3
    let checks := ["config"] ++ (if configValid then ["github_repo"] else []) ++
      ["python_deps"] ++ (if configValid then ["bgg_user"] else [])
    ⟨if a4 then 0 else 1, checks⟩

/-! ## Deduplication in download_and_index.py `main` (lines 121-128) -/

/-- A downloaded game: its BGG id plus a payload distinguishing distinct
objects that share an id. -/
structure Game where
  id : Nat
  name : String
  deriving Repr, DecidableEq

/-- One iteration of the dedup loop: state is `(seen_ids, unique_collection)`. -/
def dedupStep (st : List Nat × List Game) (game : Game) : List Nat × List Game :=
  if st.1.contains game.id then st else (game.id :: st.1, st.2 ++ [game])

/-- The deduplication pass of `main`. -/
def dedupCollection (collection : List Game) : List Game :=
  (collection.foldl dedupStep ([], [])).2

/-- Recursive presentation of the same loop, used for proofs. -/
def dedupRec (seen : List Nat) : List Game → List Game
  | [] => []
  | g :: gs =>
    if seen.contains g.id then dedupRec seen gs
    else g :: dedupRec (g.id :: seen) gs

/-! ## `check_for_upstream_updates_via_github` (download_and_index.py 54-97) -/

/-- A Python exception reaching one of the two `except` clauses. -/
inductive PyExc where
  | httpError (code : Nat)
  | other
  deriving Repr, DecidableEq

/-- Oracle for the three network interactions of the drift check, each either
raising or returning: the `default_branch` field of the upstream repo
metadata, the same for the user's repo (`none` models an absent field), and
the parsed `behind_by` of the compare response (`int(... or 0)` folded in). -/
structure DriftOracle where
  upstreamInfo : Except PyExc (Option String)
  forkInfo : Except PyExc (Option String)
  compareInfo : Except PyExc Int
  deriving Repr

/-- Result of one drift-check run: issued request URLs in order, and the
`behind_by` count when the informational notice is printed. -/
structure DriftRun where
  requests : List String
  notice : Option Int
  deriving Repr, DecidableEq

/-- URL of the upstream repo metadata request. -/
def upstreamRepoUrl : String := "https://api.github.com/repos/EmilStenstrom/gamecache"

/-- `_get_default_branch(...) or 'master'`: Python `or` treats both `None`
and the empty string as falsy. -/
def orMaster (b : Option String) : String :=
  match b with
  | some s => if s = "" then "master" else s
  | none => "master"

/-- The body of the `try` block (lines 67-89), returning either a normal
`DriftRun` or the exception together with the requests issued before it. -/
def driftBody (owner repo : String) (o : DriftOracle) :
    Except (List String × PyExc) DriftRun :=
  match o.upstreamInfo with
  | .error e => .error ([upstreamRepoUrl], e)
  | .ok ub =>
    let upstreamBranch := orMaster ub
    let forkUrl := "https://api.github.com/repos/" ++ owner ++ "/" ++ repo
    match o.forkInfo with
    | .error e => .error ([upstreamRepoUrl, forkUrl], e)
    | .ok fb =>
      let headBranch := orMaster fb
      let compareUrl := "https://api.github.com/repos/EmilStenstrom/gamecache/compare/" ++
        upstreamBranch ++ "..." ++ owner ++ ":" ++ headBranch
      match o.compareInfo with
      | .error e => .error ([upstreamRepoUrl, forkUrl, compareUrl], e)
      | .ok behindBy =>
        .ok ⟨[upstreamRepoUrl, forkUrl, compareUrl],
          if behindBy > 0 then some behindBy else none⟩

/-- `check_for_upstream_updates_via_github(github_repo)`: the environment
toggle and the malformed-identifier guard return before any request; both
`except` clauses swallow the exception and return normally (a `None`
`github_repo` is modelled by the empty string). -/
def check_for_upstream_updates_via_github (skipUpdateCheck : Bool) (githubRepo : String)
    (o : DriftOracle) : DriftRun :=
  if skipUpdateCheck then ⟨[], none⟩
  else if githubRepo = "" || !githubRepo.data.contains '/' then ⟨[], none⟩
  else
    match splitFirstSlash githubRepo.data with
    | none => ⟨[], none⟩
    | some (ownerL, repoL) =>
      match driftBody (String.mk ownerL) (String.mk repoL) o with
      | .ok run => run
      | .error (reqs, _) => ⟨reqs, none⟩

/-- Does an `Except` hold a value? -/
def exceptOk {ε α : Type} : Except ε α → Bool
  | .ok _ => true
  | .error _ => false

/-- Shape of the URL patterns used by `matchGithubUrl` for proofs: some
lowercase letters followed by the distinguished code point `stop` (46 for a
dot, 58 for a colon).  A subject made of owner characters and slashes can
never match such a pattern case-insensitively. -/
def patGuard (stop : Nat) : List Char → Bool
  | [] => false
  | c :: t =>
    if c.toNat = stop then true
    else decide (97 ≤ c.toNat) && decide (c.toNat ≤ 122) && patGuard stop t

end MyBgg

namespace MyBgg

/-! ## Character-class facts -/

theorem isAlnumChar_range {c : Char} (h : isAlnumChar c = true) :
    (65 ≤ c.toNat ∧ c.toNat ≤ 90) ∨ (97 ≤ c.toNat ∧ c.toNat ≤ 122) ∨
      (48 ≤ c.toNat ∧ c.toNat ≤ 57) := by
  simp only [isAlnumChar, Bool.or_eq_true, Bool.and_eq_true, decide_eq_true_eq] at h
  tauto

theorem isOwnerChar_range {c : Char} (h : isOwnerChar c = true) :
    (65 ≤ c.toNat ∧ c.toNat ≤ 90) ∨ (97 ≤ c.toNat ∧ c.toNat ≤ 122) ∨
      (48 ≤ c.toNat ∧ c.toNat ≤ 57) ∨ c.toNat = 45 := by
  simp only [isOwnerChar, Bool.or_eq_true, decide_eq_true_eq] at h
  rcases h with h | h
  · have h2 := isAlnumChar_range h
    tauto
  · tauto

theorem isRepoChar_range {c : Char} (h : isRepoChar c = true) :
    (65 ≤ c.toNat ∧ c.toNat ≤ 90) ∨ (97 ≤ c.toNat ∧ c.toNat ≤ 122) ∨
      (48 ≤ c.toNat ∧ c.toNat ≤ 57) ∨ c.toNat = 46 ∨ c.toNat = 95 ∨ c.toNat = 45 := by
  simp only [isRepoChar, Bool.or_eq_true, decide_eq_true_eq] at h
  rcases h with ((h | h) | h) | h
  · have h2 := isAlnumChar_range h
    tauto
  · tauto
  · tauto
  · tauto

theorem ownerChar_of_alnum {c : Char} (h : isAlnumChar c = true) : isOwnerChar c = true := by
  simp [isOwnerChar, h]

theorem ownerChar_not_space {c : Char} (h : isOwnerChar c = true) : isPySpace c = false := by
  have h2 := isOwnerChar_range h
  simp only [isPySpace, Bool.or_eq_false_iff, decide_eq_false_iff_not]
  omega

theorem repoChar_not_space {c : Char} (h : isRepoChar c = true) : isPySpace c = false := by
  have h2 := isRepoChar_range h
  simp only [isPySpace, Bool.or_eq_false_iff, decide_eq_false_iff_not]
  omega

theorem ownerChar_not_slash {c : Char} (h : isOwnerChar c = true) : c ≠ '/' := by
  intro he
  subst he
  exact absurd h (by decide)

theorem repoChar_not_slash {c : Char} (h : isRepoChar c = true) : c ≠ '/' := by
  intro he
  subst he
  exact absurd h (by decide)

theorem owner_no_slash_mem {o : List Char} (h : ∀ c ∈ o, isOwnerChar c = true) : '/' ∉ o :=
  fun hm => absurd (h _ hm) (by decide)

theorem repo_no_slash_mem {r : List Char} (h : ∀ c ∈ r, isRepoChar c = true) : '/' ∉ r :=
  fun hm => absurd (h _ hm) (by decide)

/-! ## dropWhile / strip helpers -/

theorem dropWhile_cons_false {p : Char → Bool} {a : Char} {l : List Char} (h : p a = false) :
    (a :: l).dropWhile p = a :: l := by
  simp [List.dropWhile_cons, h]

theorem pyStripChars_eq_self {l : List Char} (h : ∀ c ∈ l, isPySpace c = false) :
    pyStripChars l = l := by
  unfold pyStripChars
  cases l with
  | nil => rfl
  | cons a t =>
    rw [dropWhile_cons_false (h a (List.mem_cons_self a t))]
    cases hrev : (a :: t).reverse with
    | nil => exact absurd hrev (by simp)
    | cons b rb =>
      have hb : b ∈ a :: t := by
        rw [← List.mem_reverse, hrev]
        exact List.mem_cons_self b rb
      rw [dropWhile_cons_false (h b hb), ← hrev, List.reverse_reverse]

theorem rstripSlashes_append_eq {o r : List Char} (hr : r ≠ [])
    (h : ∀ c ∈ r, (c == '/') = false) : rstripSlashes (o ++ r) = o ++ r := by
  unfold rstripSlashes
  rw [List.reverse_append]
  cases hrev : r.reverse with
  | nil => exact absurd (by simpa using hrev) hr
  | cons b rb =>
    have hb : b ∈ r := by
      rw [← List.mem_reverse, hrev]
      exact List.mem_cons_self b rb
    rw [List.cons_append, dropWhile_cons_false (p := fun c => c == '/') (h b hb),
      ← List.cons_append, ← hrev, ← List.reverse_append, List.reverse_reverse]

/-! ## splitFirstSlash facts -/

theorem splitFirstSlash_append {o r : List Char} (ho : '/' ∉ o) :
    splitFirstSlash (o ++ '/' :: r) = some (o, r) := by
  induction o with
  | nil => simp [splitFirstSlash]
  | cons c t ih =>
    have hc : ¬(c = '/') := fun h => ho (h ▸ List.mem_cons_self c t)
    have ht : '/' ∉ t := fun h => ho (List.mem_cons_of_mem _ h)
    simp [splitFirstSlash, hc, ih ht]

theorem splitFirstSlash_eq_none {l : List Char} : splitFirstSlash l = none ↔ '/' ∉ l := by
  induction l with
  | nil => simp [splitFirstSlash]
  | cons c t ih =>
    by_cases hc : c = '/'
    · subst hc
      simp [splitFirstSlash]
    · cases h : splitFirstSlash t with
      | none =>
        have ht : '/' ∉ t := ih.mp h
        simp only [splitFirstSlash, if_neg hc, h]
        constructor
        · intro _ hm
          rcases List.mem_cons.mp hm with he | hm2
          · exact hc he.symm
          · exact ht hm2
        · intro _
          trivial
      | some ab =>
        obtain ⟨a, b⟩ := ab
        have : '/' ∈ t := by
          by_contra hmem
          rw [ih.mpr hmem] at h
          cases h
        simp [splitFirstSlash, hc, h, this]

theorem splitFirstSlash_eq_some {l a b : List Char} (h : splitFirstSlash l = some (a, b)) :
    l = a ++ '/' :: b ∧ '/' ∉ a := by
  induction l generalizing a with
  | nil => simp [splitFirstSlash] at h
  | cons c t ih =>
    by_cases hc : c = '/'
    · subst hc
      simp only [splitFirstSlash, if_pos rfl] at h
      injection h with h1
      injection h1 with ha hb
      subst ha
      subst hb
      exact ⟨rfl, by simp⟩
    · simp only [splitFirstSlash, if_neg hc] at h
      cases hsp : splitFirstSlash t with
      | none => rw [hsp] at h; cases h
      | some ab =>
        obtain ⟨a2, b2⟩ := ab
        rw [hsp] at h
        injection h with h1
        injection h1 with ha hb
        subst hb
        obtain ⟨ht, hna⟩ := ih hsp
        subst ha
        constructor
        · rw [ht]
          rfl
        · intro hm
          rcases List.mem_cons.mp hm with he | hm2
          · exact hc he.symm
          · exact hna hm2

end MyBgg

namespace MyBgg

/-! ## Case-insensitive prefix matching facts -/

theorem stripPrefixCI_patGuard_none {stop : Nat} (hstop : stop = 46 ∨ stop = 58)
    (p : List Char) : ∀ (o rest : List Char), patGuard stop p = true →
    (∀ c ∈ o, isOwnerChar c = true) → stripPrefixCI p (o ++ '/' :: rest) = none := by
  induction p with
  | nil =>
    intro o rest hp _
    simp [patGuard] at hp
  | cons pc ps ih =>
    intro o rest hp ho
    have h47 : ('/').toNat = 47 := rfl
    by_cases hc : pc.toNat = stop
    · cases o with
      | nil =>
        have hm : matchCI pc '/' = false := by
          simp only [matchCI, upperChar, Bool.or_eq_false_iff, Bool.and_eq_false_iff,
            decide_eq_false_iff_not, h47]
          omega
        show stripPrefixCI (pc :: ps) ('/' :: rest) = none
        simp [stripPrefixCI, hm]
      | cons oc o2 =>
        have hoc := isOwnerChar_range (ho oc (List.mem_cons_self oc o2))
        have hm : matchCI pc oc = false := by
          simp only [matchCI, upperChar, Bool.or_eq_false_iff, Bool.and_eq_false_iff,
            decide_eq_false_iff_not]
          omega
        show stripPrefixCI (pc :: ps) (oc :: (o2 ++ '/' :: rest)) = none
        simp [stripPrefixCI, hm]
    · have hp2 : (97 ≤ pc.toNat ∧ pc.toNat ≤ 122) ∧ patGuard stop ps = true := by
        simp only [patGuard, if_neg hc, Bool.and_eq_true, decide_eq_true_eq] at hp
        tauto
      cases o with
      | nil =>
        have hm : matchCI pc '/' = false := by
          simp only [matchCI, upperChar, Bool.or_eq_false_iff, Bool.and_eq_false_iff,
            decide_eq_false_iff_not, h47]
          omega
        show stripPrefixCI (pc :: ps) ('/' :: rest) = none
        simp [stripPrefixCI, hm]
      | cons oc o2 =>
        show stripPrefixCI (pc :: ps) (oc :: (o2 ++ '/' :: rest)) = none
        by_cases hm : matchCI pc oc = true
        · simp only [stripPrefixCI, if_pos hm]
          exact ih o2 rest hp2.2 (fun c hcm => ho c (List.mem_cons_of_mem _ hcm))
        · simp [stripPrefixCI, hm]

/-! ## Validity implies character-class membership -/

theorem valid_owner_chars {ow : String} (h : _is_valid_github_owner ow = true) :
    ow.data ≠ [] ∧ ∀ c ∈ ow.data, isOwnerChar c = true := by
  unfold _is_valid_github_owner at h
  cases hd : ow.data with
  | nil => rw [hd] at h; cases h
  | cons c rest =>
    rw [hd] at h
    simp only [Bool.and_eq_true] at h
    obtain ⟨hc, htail⟩ := h
    refine ⟨by simp, ?_⟩
    intro x hx
    rcases List.mem_cons.mp hx with he | hx2
    · exact he ▸ ownerChar_of_alnum hc
    · cases hrest : rest with
      | nil => rw [hrest] at hx2; cases hx2
      | cons d t =>
        rw [hrest] at htail hx2
        simp only [ownerTailOk, Bool.and_eq_true, decide_eq_true_eq] at htail
        have hne : d :: t ≠ [] := by simp
        obtain ⟨⟨_, hmid⟩, hlast⟩ := htail
        have hdec := List.dropLast_append_getLast hne
        rcases List.mem_append.mp (hdec ▸ hx2) with hx3 | hx3
        · exact (List.all_eq_true.mp hmid) x hx3
        · have hgl : (d :: t).getLast? = some ((d :: t).getLast hne) :=
            List.getLast?_eq_getLast _ hne
          rw [hgl] at hlast
          have hx4 : x = (d :: t).getLast hne := by
            rcases List.mem_singleton.mp hx3 with he2
            exact he2
          exact hx4 ▸ ownerChar_of_alnum hlast

theorem valid_repo_chars {rp : String} (h : _is_valid_github_repo_name rp = true) :
    rp.data ≠ [] ∧ ∀ c ∈ rp.data, isRepoChar c = true := by
  simp only [_is_valid_github_repo_name] at h
  split_ifs at h
  rw [Bool.and_eq_true] at h
  obtain ⟨hne, hall⟩ := h
  refine ⟨?_, List.all_eq_true.mp hall⟩
  intro he
  rw [he] at hne
  simp at hne

/-! ## Normalization is the identity on plain valid identifiers -/

theorem normalize_fixpoint {o r : List Char} (hoc : ∀ c ∈ o, isOwnerChar c = true)
    (hr : r ≠ []) (hrc : ∀ c ∈ r, isRepoChar c = true) :
    _normalize_github_repo (String.mk (o ++ '/' :: r)) = (String.mk (o ++ '/' :: r), []) := by
  have hns : ∀ c ∈ o ++ '/' :: r, isPySpace c = false := by
    intro c hc
    rcases List.mem_append.mp hc with h1 | h1
    · exact ownerChar_not_space (hoc c h1)
    · rcases List.mem_cons.mp h1 with he | h2
      · rw [he]
        decide
      · exact repoChar_not_space (hrc c h2)
  have h1 : pyStripChars (o ++ '/' :: r) = o ++ '/' :: r := pyStripChars_eq_self hns
  have h2 : rstripSlashes (o ++ '/' :: r) = o ++ '/' :: r := by
    have hrs : ∀ c ∈ r, (c == '/') = false := by
      intro c hc
      exact beq_eq_false_iff_ne.mpr (repoChar_not_slash (hrc c hc))
    have hsplit : o ++ '/' :: r = (o ++ ['/']) ++ r := by simp
    rw [hsplit, rstripSlashes_append_eq hr hrs, ← hsplit]
  have g1 : stripPrefixCI httpsPat (o ++ '/' :: r) = none :=
    stripPrefixCI_patGuard_none (Or.inr rfl) httpsPat o r (by decide) hoc
  have g2 : stripPrefixCI httpPat (o ++ '/' :: r) = none :=
    stripPrefixCI_patGuard_none (Or.inr rfl) httpPat o r (by decide) hoc
  have g3 : stripPrefixCI wwwPat (o ++ '/' :: r) = none :=
    stripPrefixCI_patGuard_none (Or.inl rfl) wwwPat o r (by decide) hoc
  have g4 : stripPrefixCI githubComPat (o ++ '/' :: r) = none :=
    stripPrefixCI_patGuard_none (Or.inl rfl) githubComPat o r (by decide) hoc
  have hmatch : matchGithubUrl (o ++ '/' :: r) = none := by
    unfold matchGithubUrl
    simp only [g1, g2, g3, g4]
  unfold _normalize_github_repo
  have hdata : (String.mk (o ++ '/' :: r)).data = o ++ '/' :: r := rfl
  rw [hdata, h1, h2]
  simp only [hmatch]

end MyBgg

namespace MyBgg

/-! ## Deduplication lemmas -/

theorem contains_eq_false_iff {α : Type} [BEq α] [LawfulBEq α] {l : List α} {a : α} :
    l.contains a = false ↔ a ∉ l := by
  constructor
  · intro h hm
    have he : l.elem a = true := List.elem_iff.mpr hm
    rw [show l.contains a = l.elem a from rfl, he] at h
    cases h
  · intro h
    cases he : l.contains a
    · rfl
    · exact absurd (List.elem_iff.mp he) h

theorem dedup_foldl_eq (l : List Game) : ∀ (seen : List Nat) (acc : List Game),
    (l.foldl dedupStep (seen, acc)).2 = acc ++ dedupRec seen l := by
  induction l with
  | nil => intro seen acc; simp [dedupRec]
  | cons g gs ih =>
    intro seen acc
    by_cases hm : g.id ∈ seen
    · simp [List.foldl_cons, dedupStep, hm, ih, dedupRec]
    · simp [List.foldl_cons, dedupStep, hm, ih, dedupRec]

theorem dedupRec_sublist (l : List Game) : ∀ seen : List Nat, (dedupRec seen l).Sublist l := by
  induction l with
  | nil => intro seen; simp [dedupRec]
  | cons g gs ih =>
    intro seen
    cases hb : seen.contains g.id with
    | true =>
      simp only [dedupRec, hb, if_pos]
      exact (ih seen).cons g
    | false =>
      simp only [dedupRec, hb]
      exact (ih (g.id :: seen)).cons₂ g

theorem dedupRec_not_seen (l : List Game) : ∀ (seen : List Nat) (g : Game),
    g ∈ dedupRec seen l → g.id ∉ seen := by
  induction l with
  | nil => intro seen g hg; simp [dedupRec] at hg
  | cons x xs ih =>
    intro seen g hg
    cases hb : seen.contains x.id with
    | true =>
      rw [dedupRec, if_pos (by rw [hb])] at hg
      exact ih seen g hg
    | false =>
      rw [dedupRec, if_neg (by rw [hb]; exact Bool.false_ne_true)] at hg
      rcases List.mem_cons.mp hg with he | hg2
      · rw [he]
        exact contains_eq_false_iff.mp hb
      · have := ih (x.id :: seen) g hg2
        exact fun hm => this (List.mem_cons_of_mem _ hm)

theorem dedupRec_pairwise (l : List Game) : ∀ seen : List Nat,
    (dedupRec seen l).Pairwise (fun a b => a.id ≠ b.id) := by
  induction l with
  | nil => intro seen; simp [dedupRec]
  | cons g gs ih =>
    intro seen
    cases hb : seen.contains g.id with
    | true =>
      rw [dedupRec, if_pos (by rw [hb])]
      exact ih seen
    | false =>
      rw [dedupRec, if_neg (by rw [hb]; exact Bool.false_ne_true)]
      refine List.Pairwise.cons ?_ (ih (g.id :: seen))
      intro b hb2
      have := dedupRec_not_seen gs (g.id :: seen) b hb2
      intro he
      exact this (he ▸ List.mem_cons_self g.id seen)

theorem dedupRec_find? (l : List Game) : ∀ (seen : List Nat) (i : Nat), i ∉ seen →
    (dedupRec seen l).find? (fun g => g.id == i) = l.find? (fun g => g.id == i) := by
  induction l with
  | nil => intro seen i _; simp [dedupRec]
  | cons g gs ih =>
    intro seen i hi
    cases hb : seen.contains g.id with
    | true =>
      have hgi : g.id ≠ i := by
        intro he
        exact hi (he ▸ ((List.elem_iff).mp hb))
      rw [dedupRec, if_pos (by rw [hb])]
      rw [ih seen i hi, List.find?_cons]
      have : (g.id == i) = false := beq_eq_false_iff_ne.mpr hgi
      rw [this]
    | false =>
      rw [dedupRec, if_neg (by rw [hb]; exact Bool.false_ne_true)]
      cases hgi : (g.id == i) with
      | true =>
        rw [List.find?_cons, List.find?_cons, hgi]
      | false =>
        rw [List.find?_cons, List.find?_cons, hgi]
        refine ih (g.id :: seen) i ?_
        intro hm
        rcases List.mem_cons.mp hm with he | hm2
        · exact absurd (beq_iff_eq.mpr he.symm) (by rw [hgi]; exact Bool.false_ne_true)
        · exact hi hm2

theorem dedupCollection_eq_rec (l : List Game) : dedupCollection l = dedupRec [] l := by
  unfold dedupCollection
  rw [dedup_foldl_eq l [] []]
  rfl

end MyBgg

namespace MyBgg

/-! ## Claim theorems -/

/-- C1 (code bug evidence): when `validate_config()` returns a bare `False`
(missing file, missing field or placeholder value), `main` sets
`all_good = False` and then returns without calling `sys.exit(1)`, so the
process exits with status 0 even though a validation failure occurred — the
claim requires exit status 1 in exactly this case. -/
theorem c1_config_failure_exits_zero :
    mainRun none true true true = ⟨0, ["config"]⟩ := rfl

/-- C4: whenever config validation succeeds, the orchestrator executes the
GitHub-repo/proxy check, the dependency audit and the BGG-user check
regardless of individual failures, and the exit status is 0 exactly when
the conjunction of every individual result holds. -/
theorem c4_run_all_and_conjunction (g d b : Bool) :
    (mainRun (some ()) g d b).checksRun =
      ["config", "github_repo", "python_deps", "bgg_user"] ∧
    ((mainRun (some ()) g d b).exitCode = 0 ↔ (g && d && b) = true) := by
  constructor
  · rfl
  · cases g <;> cases d <;> cases b <;> simp [mainRun]

theorem c4_witness :
    (mainRun (some ()) true false true).checksRun =
      ["config", "github_repo", "python_deps", "bgg_user"] ∧
    ((mainRun (some ()) true false true).exitCode = 0 ↔ (true && false && true) = true) :=
  c4_run_all_and_conjunction true false true

/-- C2 (counterexample): for the manifest line `Pillow==10.0.0` the declared
name is `Pillow`, but the import-name override compares against the exact
lowercase string `pillow`, so the probe name is `Pillow`, not `PIL`: with
`PIL` importable and `Pillow` not, the auditor still fails and lists
`Pillow` as missing — contradicting the claim that `PIL` is probed and the
entry passes whenever `PIL` is importable. -/
theorem c2_counterexample :
    importNameFor "Pillow" = "Pillow" ∧
    validate_python_deps ["Pillow==10.0.0"] (fun s => s == "PIL") = (false, ["Pillow"]) :=
  ⟨rfl, rfl⟩

/-- C2 (amended): for a manifest containing the line `Pillow==10.0.0`, the
auditor strips the version clause to get declared name `Pillow`, and probes
the name `Pillow` (the lowercase-only override does not fire), reports
Pass for that entry exactly when `Pillow` is importable, and otherwise
includes the string `Pillow` verbatim in the missing list. -/
theorem c2_amended (importable : String → Bool) :
    parseRequirements ["Pillow==10.0.0"] = ["Pillow"] ∧
    importNameFor "Pillow" = "Pillow" ∧
    validate_python_deps ["Pillow==10.0.0"] importable =
      (if importable "Pillow" then (true, []) else (false, ["Pillow"])) := by
  refine ⟨rfl, rfl, ?_⟩
  simp only [validate_python_deps]
  rw [show parseRequirements ["Pillow==10.0.0"] = ["Pillow"] from rfl]
  simp only [List.filter_cons, List.filter_nil]
  rw [show importNameFor "Pillow" = "Pillow" from rfl]
  cases hi : importable "Pillow" <;> simp [hi]

theorem c2_amended_witness :
    parseRequirements ["Pillow==10.0.0"] = ["Pillow"] ∧
    importNameFor "Pillow" = "Pillow" ∧
    validate_python_deps ["Pillow==10.0.0"] (fun s => s == "Pillow") =
      (if (fun s : String => s == "Pillow") "Pillow" then (true, [])
       else (false, ["Pillow"])) :=
  c2_amended (fun s => s == "Pillow")

/-- C8: the upstream-drift check issues no request at all when the
environment toggle is set or the identifier contains no slash, and an
exception in any of the three network stages is swallowed: the check still
returns normally (it is a total function into `DriftRun`) and prints no
notice, so the surrounding publishing flow and its exit status are
unaffected. -/
theorem c8_drift_guard_and_swallow (skip : Bool) (gr : String) (o : DriftOracle) :
    ((skip = true ∨ gr.data.contains '/' = false) →
      check_for_upstream_updates_via_github skip gr o = ⟨[], none⟩) ∧
    ((exceptOk o.upstreamInfo = false ∨ exceptOk o.forkInfo = false ∨
        exceptOk o.compareInfo = false) →
      (check_for_upstream_updates_via_github skip gr o).notice = none) := by
  constructor
  · intro h
    rcases h with hs | hns
    · simp [check_for_upstream_updates_via_github, hs]
    · cases skip with
      | true => simp [check_for_upstream_updates_via_github]
      | false =>
        have hmem : '/' ∉ gr.data := contains_eq_false_iff.mp hns
        simp [check_for_upstream_updates_via_github, hmem]
  · intro h
    cases skip with
    | true => simp [check_for_upstream_updates_via_github]
    | false =>
      by_cases hp : gr = "" ∨ '/' ∉ gr.data
      · simp [check_for_upstream_updates_via_github, hp]
      · push_neg at hp
        obtain ⟨h1, h2⟩ := hp
        have h3 : gr.data.contains '/' = true :=
          show List.elem '/' gr.data = true from List.elem_iff.mpr h2
        have hcond : (decide (gr = "") || !gr.data.contains '/') = false := by
          simp [h1, h2, h3]
        simp only [check_for_upstream_updates_via_github, hcond, Bool.false_eq_true, if_false]
        cases hsp : splitFirstSlash gr.data with
        | none => simp [hsp]
        | some ab =>
          obtain ⟨a, b⟩ := ab
          simp only [hsp]
          obtain ⟨u, f, c⟩ := o
          cases u with
          | error e => simp [driftBody]
          | ok ub =>
            cases f with
            | error e => simp [driftBody]
            | ok fb =>
              cases c with
              | error e => simp [driftBody]
              | ok n => simp [exceptOk] at h


theorem c8_witness :
    check_for_upstream_updates_via_github true "ab" ⟨.ok none, .ok none, .ok 0⟩ = ⟨[], none⟩ ∧
    (check_for_upstream_updates_via_github false "a/b"
        ⟨.error .other, .ok none, .ok 0⟩).notice = none :=
  ⟨(c8_drift_guard_and_swallow true "ab" ⟨.ok none, .ok none, .ok 0⟩).1 (Or.inl rfl),
   (c8_drift_guard_and_swallow false "a/b" ⟨.error .other, .ok none, .ok 0⟩).2 (Or.inl rfl)⟩

/-- C9: the deduplication step keeps a subsequence of the downloaded
collection (preserving relative order), no two kept games share an id, and
for every id the first matching game of the result is exactly the first
matching game of the original collection (so exactly the first occurrence
of each id is kept). -/
theorem c9_dedup_first_occurrences (l : List Game) (i : Nat) :
    (dedupCollection l).Sublist l ∧
    (dedupCollection l).Pairwise (fun a b => a.id ≠ b.id) ∧
    (dedupCollection l).find? (fun g => g.id == i) = l.find? (fun g => g.id == i) := by
  rw [dedupCollection_eq_rec]
  exact ⟨dedupRec_sublist l [], dedupRec_pairwise l [],
    dedupRec_find? l [] i (List.not_mem_nil i)⟩

theorem c9_witness :
    (dedupCollection [⟨1, "a"⟩, ⟨1, "b"⟩, ⟨2, "c"⟩]).Sublist [⟨1, "a"⟩, ⟨1, "b"⟩, ⟨2, "c"⟩] ∧
    (dedupCollection [⟨1, "a"⟩, ⟨1, "b"⟩, ⟨2, "c"⟩]).Pairwise (fun a b => a.id ≠ b.id) ∧
    (dedupCollection [⟨1, "a"⟩, ⟨1, "b"⟩, ⟨2, "c"⟩]).find? (fun g => g.id == 1) =
      ([⟨1, "a"⟩, ⟨1, "b"⟩, ⟨2, "c"⟩] : List Game).find? (fun g => g.id == 1) :=
  c9_dedup_first_occurrences [⟨1, "a"⟩, ⟨1, "b"⟩, ⟨2, "c"⟩] 1

end MyBgg

namespace MyBgg

/-! ## Spec-grammar character facts -/

theorem specOwnerRest_chars : ∀ (l : List Char), specOwnerRest l = true →
    ∀ c ∈ l, isOwnerChar c = true
  | [], _, c, hc => absurd hc (List.not_mem_nil c)
  | c0 :: rest, h, c, hc => by
    by_cases h0 : c0 = '-'
    · subst h0
      cases rest with
      | nil => simp [specOwnerRest] at h
      | cons d t =>
        simp only [specOwnerRest, eq_self_iff_true, if_true, Bool.and_eq_true] at h
        rcases List.mem_cons.mp hc with he | hc2
        · rw [he]
          decide
        · rcases List.mem_cons.mp hc2 with he2 | hc3
          · exact he2 ▸ ownerChar_of_alnum h.1
          · exact specOwnerRest_chars t h.2 c hc3
    · cases rest with
      | nil =>
        simp only [specOwnerRest] at h
        rw [if_neg h0, Bool.and_eq_true] at h
        rcases List.mem_cons.mp hc with he | hc2
        · exact he ▸ ownerChar_of_alnum h.1
        · exact absurd hc2 (List.not_mem_nil c)
      | cons d t =>
        simp only [specOwnerRest] at h
        rw [if_neg h0, Bool.and_eq_true] at h
        rcases List.mem_cons.mp hc with he | hc2
        · exact he ▸ ownerChar_of_alnum h.1
        · exact specOwnerRest_chars (d :: t) h.2 c hc2

theorem specOwnerGrammar_chars {o : List Char} (h : specOwnerGrammar o = true) :
    o ≠ [] ∧ ∀ c ∈ o, isOwnerChar c = true := by
  cases ho : o with
  | nil => rw [ho] at h; cases h
  | cons c0 t =>
    rw [ho] at h
    simp only [specOwnerGrammar, Bool.and_eq_true] at h
    obtain ⟨⟨hc0, hrest⟩, _⟩ := h
    refine ⟨by simp, ?_⟩
    intro c hc
    rcases List.mem_cons.mp hc with he | hc2
    · exact he ▸ ownerChar_of_alnum hc0
    · exact specOwnerRest_chars t hrest c hc2

theorem specRepoGrammar_chars {r : List Char} (h : specRepoGrammar r = true) :
    r ≠ [] ∧ ∀ c ∈ r, isRepoChar c = true := by
  simp only [specRepoGrammar, Bool.and_eq_true] at h
  obtain ⟨⟨⟨⟨hne, hall⟩, _⟩, _⟩, _⟩ := h
  refine ⟨?_, List.all_eq_true.mp hall⟩
  intro he
  rw [he] at hne
  simp at hne

/-! ## C7: idempotence of normalization on grammar-conformant identifiers -/

/-- C7: for every string matching the owner/repo grammar of the spec
(owner `[A-Za-z0-9](-?[A-Za-z0-9])*` of length 1-39, repo `[A-Za-z0-9._-]+`
excluding `.`, `..`, `..` substrings and `%`), a second normalization pass
returns the first pass's result unchanged together with an empty warning
list. -/
theorem c7_normalize_idempotent (s : String) (o r : List Char)
    (hs : s.data = o ++ '/' :: r)
    (ho : specOwnerGrammar o = true) (hr : specRepoGrammar r = true) :
    _normalize_github_repo ((_normalize_github_repo s).1) =
      ((_normalize_github_repo s).1, []) := by
  obtain ⟨hone, hoc⟩ := specOwnerGrammar_chars ho
  obtain ⟨hrne, hrc⟩ := specRepoGrammar_chars hr
  obtain ⟨d⟩ := s
  have hd : d = o ++ '/' :: r := hs
  subst hd
  have h1 := normalize_fixpoint hoc hrne hrc
  rw [h1]
  exact h1

theorem c7_witness :
    _normalize_github_repo ((_normalize_github_repo "Foo-Bar/repo.name").1) =
      ((_normalize_github_repo "Foo-Bar/repo.name").1, []) :=
  c7_normalize_idempotent "Foo-Bar/repo.name" "Foo-Bar".data "repo.name".data rfl
    (by decide) (by decide)

end MyBgg

namespace MyBgg

/-! ## Strip lemmas for padded inputs -/

theorem pyStripChars_cons_space (l : List Char) :
    pyStripChars (' ' :: l) = pyStripChars l := by
  unfold pyStripChars
  rw [List.dropWhile_cons, if_pos (show isPySpace ' ' = true from by decide)]

theorem pyStripChars_append_space {b : Char} {t : List Char} (hb : isPySpace b = false)
    {e : Char} {rr : List Char} (hrev : (b :: t).reverse = e :: rr)
    (he : isPySpace e = false) :
    pyStripChars ((b :: t) ++ [' ']) = b :: t := by
  unfold pyStripChars
  rw [List.cons_append, dropWhile_cons_false hb]
  have h2 : (b :: (t ++ [' '])).reverse = ' ' :: (b :: t).reverse := by simp
  rw [h2, List.dropWhile_cons, if_pos (show isPySpace ' ' = true from by decide), hrev,
    dropWhile_cons_false he, ← hrev, List.reverse_reverse]

/-! ## C10: leading/trailing whitespace and case-insensitive URL form -/

/-- C10: the normalizer strips leading and trailing whitespace from the raw
value before matching and recognizes the URL form case-insensitively in
scheme and host: a space-padded, upper-case `HTTPS://WWW.GITHUB.COM/` URL
around any owner/repo pair (nonempty, slash-free, repo not ending in
whitespace) normalizes to `owner/repo` with exactly the one URL warning. -/
theorem c10_strip_and_case_insensitive (o r : String)
    (ho1 : o.data ≠ []) (hr1 : r.data ≠ [])
    (ho2 : '/' ∉ o.data) (hr2 : '/' ∉ r.data)
    (hr3 : ∀ c ∈ r.data, isPySpace c = false) :
    _normalize_github_repo (" HTTPS://WWW.GITHUB.COM/" ++ o ++ "/" ++ r ++ " ") =
      (o ++ "/" ++ r, [urlWarning]) := by
  have hdata : (" HTTPS://WWW.GITHUB.COM/" ++ o ++ "/" ++ r ++ " ").data =
      ' ' :: (('H' :: 'T' :: 'T' :: 'P' :: 'S' :: ':' :: '/' :: '/' :: 'W' :: 'W' :: 'W' ::
        '.' :: 'G' :: 'I' :: 'T' :: 'H' :: 'U' :: 'B' :: '.' :: 'C' :: 'O' :: 'M' :: '/' ::
        (o.data ++ '/' :: r.data)) ++ [' ']) := by
    simp [String.data_append]
  obtain ⟨e, rr, hRrev, heR⟩ :
      ∃ e rr, r.data.reverse = e :: rr ∧ isPySpace e = false := by
    cases hrv : r.data.reverse with
    | nil => exact absurd (by simpa using hrv) hr1
    | cons e rr =>
      refine ⟨e, rr, rfl, ?_⟩
      have he : e ∈ r.data := by
        rw [← List.mem_reverse, hrv]
        exact List.mem_cons_self e rr
      exact hr3 e he
  have hrevm : ('H' :: 'T' :: 'T' :: 'P' :: 'S' :: ':' :: '/' :: '/' :: 'W' :: 'W' :: 'W' ::
      '.' :: 'G' :: 'I' :: 'T' :: 'H' :: 'U' :: 'B' :: '.' :: 'C' :: 'O' :: 'M' :: '/' ::
      (o.data ++ '/' :: r.data)).reverse = e :: (rr ++
        (['H', 'T', 'T', 'P', 'S', ':', '/', '/', 'W', 'W', 'W', '.', 'G', 'I', 'T', 'H',
          'U', 'B', '.', 'C', 'O', 'M', '/'] ++ o.data ++ ['/']).reverse) := by
    have hm2 : 'H' :: 'T' :: 'T' :: 'P' :: 'S' :: ':' :: '/' :: '/' :: 'W' :: 'W' :: 'W' ::
        '.' :: 'G' :: 'I' :: 'T' :: 'H' :: 'U' :: 'B' :: '.' :: 'C' :: 'O' :: 'M' :: '/' ::
        (o.data ++ '/' :: r.data) =
        (['H', 'T', 'T', 'P', 'S', ':', '/', '/', 'W', 'W', 'W', '.', 'G', 'I', 'T', 'H',
          'U', 'B', '.', 'C', 'O', 'M', '/'] ++ o.data ++ ['/']) ++ r.data := by
      simp
    rw [hm2, List.reverse_append, hRrev]
    rfl
  have hstrip : pyStripChars ((" HTTPS://WWW.GITHUB.COM/" ++ o ++ "/" ++ r ++ " ").data) =
      'H' :: 'T' :: 'T' :: 'P' :: 'S' :: ':' :: '/' :: '/' :: 'W' :: 'W' :: 'W' ::
        '.' :: 'G' :: 'I' :: 'T' :: 'H' :: 'U' :: 'B' :: '.' :: 'C' :: 'O' :: 'M' :: '/' ::
        (o.data ++ '/' :: r.data) := by
    rw [hdata, pyStripChars_cons_space]
    exact pyStripChars_append_space (by decide) hrevm heR
  have hrstrip : rstripSlashes ('H' :: 'T' :: 'T' :: 'P' :: 'S' :: ':' :: '/' :: '/' ::
      'W' :: 'W' :: 'W' :: '.' :: 'G' :: 'I' :: 'T' :: 'H' :: 'U' :: 'B' :: '.' :: 'C' ::
      'O' :: 'M' :: '/' :: (o.data ++ '/' :: r.data)) =
      'H' :: 'T' :: 'T' :: 'P' :: 'S' :: ':' :: '/' :: '/' :: 'W' :: 'W' :: 'W' ::
        '.' :: 'G' :: 'I' :: 'T' :: 'H' :: 'U' :: 'B' :: '.' :: 'C' :: 'O' :: 'M' :: '/' ::
        (o.data ++ '/' :: r.data) := by
    have hm2 : 'H' :: 'T' :: 'T' :: 'P' :: 'S' :: ':' :: '/' :: '/' :: 'W' :: 'W' :: 'W' ::
        '.' :: 'G' :: 'I' :: 'T' :: 'H' :: 'U' :: 'B' :: '.' :: 'C' :: 'O' :: 'M' :: '/' ::
        (o.data ++ '/' :: r.data) =
        (['H', 'T', 'T', 'P', 'S', ':', '/', '/', 'W', 'W', 'W', '.', 'G', 'I', 'T', 'H',
          'U', 'B', '.', 'C', 'O', 'M', '/'] ++ o.data ++ ['/']) ++ r.data := by
      simp
    have hrs : ∀ c ∈ r.data, (c == '/') = false := by
      intro c hc
      exact beq_eq_false_iff_ne.mpr (fun he2 => hr2 (he2 ▸ hc))
    rw [hm2, rstripSlashes_append_eq hr1 hrs]
  have e1 : ∀ t : List Char,
      stripPrefixCI httpsPat ('H' :: 'T' :: 'T' :: 'P' :: 'S' :: ':' :: '/' :: '/' :: t) =
        some t := fun _ => rfl
  have e2 : ∀ t : List Char,
      stripPrefixCI wwwPat ('W' :: 'W' :: 'W' :: '.' :: t) = some t := fun _ => rfl
  have e3 : ∀ t : List Char,
      stripPrefixCI githubComPat ('G' :: 'I' :: 'T' :: 'H' :: 'U' :: 'B' :: '.' :: 'C' ::
        'O' :: 'M' :: '/' :: t) = some t := fun _ => rfl
  have hLe : o.data.isEmpty = false := by
    cases hc : o.data with
    | nil => exact absurd hc ho1
    | cons _ _ => rfl
  have hRe : r.data.isEmpty = false := by
    cases hc : r.data with
    | nil => exact absurd hc hr1
    | cons _ _ => rfl
  have hRc : r.data.contains '/' = false := contains_eq_false_iff.mpr hr2
  have hmatch : matchGithubUrl ('H' :: 'T' :: 'T' :: 'P' :: 'S' :: ':' :: '/' :: '/' ::
      'W' :: 'W' :: 'W' :: '.' :: 'G' :: 'I' :: 'T' :: 'H' :: 'U' :: 'B' :: '.' :: 'C' ::
      'O' :: 'M' :: '/' :: (o.data ++ '/' :: r.data)) = some (o.data, r.data) := by
    unfold matchGithubUrl
    simp only [e1, e2, e3, splitFirstSlash_append ho2, hLe, hRe, hRc]
    simp
  unfold _normalize_github_repo
  rw [hstrip, hrstrip]
  simp only [hmatch]

theorem c10_witness :
    _normalize_github_repo (" HTTPS://WWW.GITHUB.COM/" ++ "Foo" ++ "/" ++ "Bar" ++ " ") =
      ("Foo" ++ "/" ++ "Bar", [urlWarning]) :=
  c10_strip_and_case_insensitive "Foo" "Bar" (by decide) (by decide) (by decide) (by decide)
    (by decide)

end MyBgg

namespace MyBgg

/-! ## Gate facts for valid owner/repo identifiers -/

theorem gate_facts (owner repo : String)
    (howner : _is_valid_github_owner owner = true)
    (hrepo : _is_valid_github_repo_name repo = true) :
    _normalize_github_repo (owner ++ "/" ++ repo) = (owner ++ "/" ++ repo, []) ∧
    (owner ++ "/" ++ repo).data = owner.data ++ '/' :: repo.data ∧
    owner.data.count '/' = 0 ∧ repo.data.count '/' = 0 ∧
    splitFirstSlash (owner.data ++ '/' :: repo.data) = some (owner.data, repo.data) := by
  obtain ⟨hone, hoc⟩ := valid_owner_chars howner
  obtain ⟨hrne, hrc⟩ := valid_repo_chars hrepo
  have hslash : ("/" : String).data = ['/'] := rfl
  have hdat : (owner ++ "/" ++ repo).data = owner.data ++ '/' :: repo.data := by
    simp [String.data_append, hslash]
  have hns : '/' ∉ owner.data := owner_no_slash_mem hoc
  have hnr : '/' ∉ repo.data := repo_no_slash_mem hrc
  refine ⟨?_, hdat, List.count_eq_zero.mpr hns, List.count_eq_zero.mpr hnr,
    splitFirstSlash_append hns⟩
  have hkey : owner ++ "/" ++ repo = String.mk (owner.data ++ '/' :: repo.data) := by
    rw [← hdat]
  rw [hkey]
  exact normalize_fixpoint hoc hrne hrc

/-- C5: when the account-existence call returns 404 for a well-formed
`owner/repo`, `validate_github_repo` fails with a printed line mentioning
"404", and the only request ever issued is the user lookup — neither the
repository-existence request nor any proxy request happens. -/
theorem c5_user_404_short_circuits (owner repo : String) (env : GithubEnv)
    (howner : _is_valid_github_owner owner = true)
    (hrepo : _is_valid_github_repo_name repo = true)
    (h404 : env.userResp.status = 404) :
    (validate_github_repo (owner ++ "/" ++ repo) env).ok = false ∧
    (validate_github_repo (owner ++ "/" ++ repo) env).requests =
      [("GET", "https://api.github.com/users/" ++ owner)] ∧
    ∃ m ∈ (validate_github_repo (owner ++ "/" ++ repo) env).msgs,
      ∃ s t : List Char, m.data = s ++ "404".data ++ t := by
  obtain ⟨hnorm, hdat, hzo, hzr, hsplit⟩ := gate_facts owner repo howner hrepo
  have heo : (String.mk owner.data) = owner := rfl
  have her : (String.mk repo.data) = repo := rfl
  refine ⟨?_, ?_, ?_⟩
  · simp [validate_github_repo, hnorm, hdat, hzo, hzr, hsplit, heo, her, howner, hrepo,
      _validate_github_user, h404]
  · simp [validate_github_repo, hnorm, hdat, hzo, hzr, hsplit, heo, her, howner, hrepo,
      _validate_github_user, h404]
  · refine ⟨"❌ GitHub user " ++ owner ++ " not found (404)", ?_, ?_⟩
    · simp [validate_github_repo, hnorm, hdat, hzo, hzr, hsplit, heo, her, howner, hrepo,
        _validate_github_user, h404]
    · refine ⟨("❌ GitHub user " ++ owner ++ " not found (").data, (")").data, ?_⟩
      simp [String.data_append]

theorem c5_witness :
    (validate_github_repo ("octocat" ++ "/" ++ "gamecache")
        ⟨⟨404, "", none⟩, ⟨200, "", none⟩, ⟨200, "", none⟩, ⟨200, "", none⟩⟩).ok = false ∧
    (validate_github_repo ("octocat" ++ "/" ++ "gamecache")
        ⟨⟨404, "", none⟩, ⟨200, "", none⟩, ⟨200, "", none⟩, ⟨200, "", none⟩⟩).requests =
      [("GET", "https://api.github.com/users/" ++ "octocat")] ∧
    ∃ m ∈ (validate_github_repo ("octocat" ++ "/" ++ "gamecache")
        ⟨⟨404, "", none⟩, ⟨200, "", none⟩, ⟨200, "", none⟩, ⟨200, "", none⟩⟩).msgs,
      ∃ s t : List Char, m.data = s ++ "404".data ++ t :=
  c5_user_404_short_circuits "octocat" "gamecache"
    ⟨⟨404, "", none⟩, ⟨200, "", none⟩, ⟨200, "", none⟩, ⟨200, "", none⟩⟩
    (by decide) (by decide) rfl

/-- C6: when the proxy HEAD request returns 400 (after 200s from the two
GitHub lookups), the checker re-issues the same proxy URL as a GET, fails,
and prints a Details line containing the GET body's decoded snippet — for a
nonempty body of at most 300 characters, the exact body text — verbatim.
The request trace shows the HEAD and the re-issued GET with the identical
URL. -/
theorem c6_proxy_400_get_detail (owner repo : String) (env : GithubEnv)
    (howner : _is_valid_github_owner owner = true)
    (hrepo : _is_valid_github_repo_name repo = true)
    (h200u : env.userResp.status = 200)
    (h200r : env.repoResp.status = 200)
    (h400 : env.proxyHeadResp.status = 400)
    (hbody : env.proxyGetResp.body.data ≠ [])
    (hlen : env.proxyGetResp.body.data.length ≤ 300) :
    (validate_github_repo (owner ++ "/" ++ repo) env).ok = false ∧
    (validate_github_repo (owner ++ "/" ++ repo) env).requests =
      [("GET", "https://api.github.com/users/" ++ owner),
       ("GET", "https://api.github.com/repos/" ++ owner ++ "/" ++ repo),
       ("HEAD", "https://cors-proxy.mybgg.workers.dev/" ++ owner ++ "/" ++ repo),
       ("GET", "https://cors-proxy.mybgg.workers.dev/" ++ owner ++ "/" ++ repo)] ∧
    ∃ m ∈ (validate_github_repo (owner ++ "/" ++ repo) env).msgs,
      ∃ s t : List Char, m.data = s ++ env.proxyGetResp.body.data ++ t := by
  obtain ⟨hnorm, hdat, hzo, hzr, hsplit⟩ := gate_facts owner repo howner hrepo
  have heo : (String.mk owner.data) = owner := rfl
  have her : (String.mk repo.data) = repo := rfl
  have hsnip : _decode_snippet env.proxyGetResp.body = env.proxyGetResp.body := by
    unfold _decode_snippet
    rw [if_neg hbody, List.take_of_length_le hlen]
  have hne : ¬(env.proxyGetResp.body = "") := by
    intro he
    rw [he] at hbody
    exact hbody rfl
  refine ⟨?_, ?_, ?_⟩
  · simp [validate_github_repo, hnorm, hdat, hzo, hzr, hsplit, heo, her, howner, hrepo,
      _validate_github_user, h200u, h200r, h400, hsnip, hne]
  · simp [validate_github_repo, hnorm, hdat, hzo, hzr, hsplit, heo, her, howner, hrepo,
      _validate_github_user, h200u, h200r, h400, hsnip, hne]
  · refine ⟨"   Details: " ++ env.proxyGetResp.body, ?_, ?_⟩
    · simp [validate_github_repo, hnorm, hdat, hzo, hzr, hsplit, heo, her, howner, hrepo,
        _validate_github_user, h200u, h200r, h400, hsnip, hne]
    · refine ⟨("   Details: " : String).data, [], ?_⟩
      simp [String.data_append]

theorem c6_witness :
    (validate_github_repo ("octocat" ++ "/" ++ "gamecache")
        ⟨⟨200, "", none⟩, ⟨200, "", none⟩, ⟨400, "", none⟩,
          ⟨400, "github_repo must be OWNER/REPO", none⟩⟩).ok = false ∧
    (validate_github_repo ("octocat" ++ "/" ++ "gamecache")
        ⟨⟨200, "", none⟩, ⟨200, "", none⟩, ⟨400, "", none⟩,
          ⟨400, "github_repo must be OWNER/REPO", none⟩⟩).requests =
      [("GET", "https://api.github.com/users/" ++ "octocat"),
       ("GET", "https://api.github.com/repos/" ++ "octocat" ++ "/" ++ "gamecache"),
       ("HEAD", "https://cors-proxy.mybgg.workers.dev/" ++ "octocat" ++ "/" ++ "gamecache"),
       ("GET", "https://cors-proxy.mybgg.workers.dev/" ++ "octocat" ++ "/" ++ "gamecache")] ∧
    ∃ m ∈ (validate_github_repo ("octocat" ++ "/" ++ "gamecache")
        ⟨⟨200, "", none⟩, ⟨200, "", none⟩, ⟨400, "", none⟩,
          ⟨400, "github_repo must be OWNER/REPO", none⟩⟩).msgs,
      ∃ s t : List Char,
        m.data = s ++ (("github_repo must be OWNER/REPO" : String)).data ++ t :=
  c6_proxy_400_get_detail "octocat" "gamecache"
    ⟨⟨200, "", none⟩, ⟨200, "", none⟩, ⟨400, "", none⟩,
      ⟨400, "github_repo must be OWNER/REPO", none⟩⟩
    (by decide) (by decide) rfl rfl rfl (by decide) (by decide)

end MyBgg

namespace MyBgg

/-! ## C3: the identifier grammar actually enforced by the validator -/

theorem ownerTailOk_eq (rest : List Char) :
    ownerTailOk rest = (decide (rest.length ≤ 38) && rest.all isOwnerChar &&
      (match rest.getLast? with
       | some d => isAlnumChar d
       | none => true)) := by
  cases rest with
  | nil => rfl
  | cons d t =>
    have hne : d :: t ≠ [] := by simp
    have hgl : (d :: t).getLast? = some ((d :: t).getLast hne) :=
      List.getLast?_eq_getLast _ hne
    rw [Bool.eq_iff_iff]
    simp only [ownerTailOk, hgl, Bool.and_eq_true, decide_eq_true_eq, List.all_eq_true]
    constructor
    · rintro ⟨⟨hlen, hmid⟩, hlast⟩
      refine ⟨⟨hlen, ?_⟩, hlast⟩
      intro x hx
      have hdec := List.dropLast_append_getLast hne
      rcases List.mem_append.mp (hdec ▸ hx) with hx2 | hx2
      · exact hmid x hx2
      · rcases List.mem_singleton.mp hx2 with he
        exact he ▸ ownerChar_of_alnum hlast
    · rintro ⟨⟨hlen, hall⟩, hlast⟩
      refine ⟨⟨hlen, ?_⟩, hlast⟩
      intro x hx
      exact hall x (List.dropLast_subset _ hx)

theorem owner_eq_amended (o : List Char) :
    _is_valid_github_owner (String.mk o) = ownerGrammarAmended o := by
  cases o with
  | nil => rfl
  | cons c rest =>
    show (isAlnumChar c && ownerTailOk rest) = _
    rw [ownerTailOk_eq]
    simp only [ownerGrammarAmended]
    rw [Bool.eq_iff_iff]
    simp only [Bool.and_eq_true]
    tauto

theorem repo_name_eq_spec (r : List Char) :
    _is_valid_github_repo_name (String.mk r) = specRepoGrammar r := by
  rw [Bool.eq_iff_iff]
  simp only [_is_valid_github_repo_name, specRepoGrammar]
  constructor
  · intro h
    split_ifs at h with h1 h2 h3
    simp only [Bool.and_eq_true] at h ⊢
    simp only [Bool.or_eq_true, decide_eq_true_eq] at h1
    push_neg at h1
    have hb2 : hasDoubleDot r = false := by
      cases hc : hasDoubleDot r
      · rfl
      · exact absurd hc h2
    have hb3 : r.contains '%' = false := by
      cases hc : r.contains '%'
      · rfl
      · exact absurd hc h3
    refine ⟨⟨⟨⟨h.1, h.2⟩, ?_⟩, ?_⟩, ?_⟩
    · simp [h1.1, h1.2]
    · simp [hb2]
    · simp [contains_eq_false_iff.mp hb3]
  · intro h
    simp only [Bool.and_eq_true] at h
    obtain ⟨⟨⟨⟨hne, hall⟩, hdot⟩, hdd⟩, hpc⟩ := h
    split_ifs with h1 h2 h3
    · exfalso
      simp only [Bool.or_eq_true, decide_eq_true_eq] at h1
      simp at hdot
      rcases h1 with h1 | h1
      · exact hdot.1 h1
      · exact hdot.2 h1
    · exfalso
      simp at hdd
      rw [h2] at hdd
      cases hdd
    · exfalso
      simp at hpc
      exact hpc (List.elem_iff.mp (show List.elem '%' r = true from h3))
    · simp [hne, hall]

theorem c3_gate_eq (n : List Char) :
    (if !n.contains '/' || decide (n.count '/' ≠ 1) then false
     else
       match splitFirstSlash n with
       | none => false
       | some (o, r) =>
         _is_valid_github_owner (String.mk o) && _is_valid_github_repo_name (String.mk r)) =
      c3IdentifierGrammar n := by
  cases hsp : splitFirstSlash n with
  | none =>
    have hns : '/' ∉ n := splitFirstSlash_eq_none.mp hsp
    have hc : n.contains '/' = false := contains_eq_false_iff.mpr hns
    simp [c3IdentifierGrammar, hsp, hc]
  | some ab =>
    obtain ⟨o, r⟩ := ab
    obtain ⟨hn, hno⟩ := splitFirstSlash_eq_some hsp
    subst hn
    by_cases hr : '/' ∈ r
    · have hx : ¬(List.count '/' o + (List.count '/' r + 1) = 1) := by
        have h2 : 1 ≤ List.count '/' r := List.one_le_count_iff.mpr hr
        omega
      simp [c3IdentifierGrammar, hsp, hx, hr]
    · have hc : (o ++ '/' :: r).contains '/' = true :=
        show List.elem '/' _ = true from List.elem_iff.mpr (by simp)
      have hcount : (o ++ '/' :: r).count '/' = 1 := by
        rw [List.count_append, List.count_cons]
        have h1 : o.count '/' = 0 := List.count_eq_zero.mpr hno
        have h2 : r.count '/' = 0 := List.count_eq_zero.mpr hr
        simp [h1, h2]
      simp [c3IdentifierGrammar, hsp, hc, hcount, hr, owner_eq_amended, repo_name_eq_spec]

/-- C3 (counterexample): the validator accepts `a--b/repo` — the code's
owner regex allows consecutive hyphens — while the claimed owner grammar
`[A-Za-z0-9](-?[A-Za-z0-9])*` rejects `a--b`, so the claimed
"accepts iff grammar" equivalence is false at this input. -/
theorem c3_counterexample :
    repoFormatAccepted "a--b/repo" = true ∧
    c3OriginalGrammar ((_normalize_github_repo "a--b/repo").1).data = false :=
  ⟨by decide, by decide⟩

/-- C3 (amended): the validator accepts an identifier iff its normalized
form is an owner part and a repo part separated by exactly one slash where
the owner matches `[A-Za-z0-9]([A-Za-z0-9-]*[A-Za-z0-9])?` of length 1-39
(first and last characters alphanumeric, interior alphanumeric or hyphen,
consecutive hyphens allowed) and the repo matches `[A-Za-z0-9._-]+`, is not
`.` or `..`, and contains neither `..` nor `%`; in particular `a..b/repo`,
`owner/..` and `owner/re%20po` are all rejected. -/
theorem c3_amended (s : String) :
    (repoFormatAccepted s = true ↔
      c3IdentifierGrammar ((_normalize_github_repo s).1).data = true) ∧
    repoFormatAccepted "a..b/repo" = false ∧
    repoFormatAccepted "owner/.." = false ∧
    repoFormatAccepted "owner/re%20po" = false := by
  refine ⟨?_, by decide, by decide, by decide⟩
  have h : repoFormatAccepted s = c3IdentifierGrammar ((_normalize_github_repo s).1).data :=
    c3_gate_eq ((_normalize_github_repo s).1).data
  rw [h]

theorem c3_witness :
    (repoFormatAccepted "EmilStenstrom/gamecache" = true ↔
      c3IdentifierGrammar ((_normalize_github_repo "EmilStenstrom/gamecache").1).data = true) ∧
    repoFormatAccepted "a..b/repo" = false ∧
    repoFormatAccepted "owner/.." = false ∧
    repoFormatAccepted "owner/re%20po" = false :=
  c3_amended "EmilStenstrom/gamecache"

end MyBgg
